import Mathlib

/-!
Verification of the streaming statistical-arbitrage analytics engine
(tick normalization, OHLCV resampling, in-memory store, OLS hedge ratio,
rolling z-score, rule-based alert engine) against its specification.

The Python sources are shallowly embedded: datetimes become rational
numbers of seconds since the Unix epoch, floats become exact rationals
(with the floating square root of the rolling standard deviation kept as
an explicit function parameter), Python dicts become association lists
with Python's insertion-order update semantics, and `deque(maxlen=m)`
becomes "append then keep the last m elements".
-/

namespace StatArb

/-! ### Association-list model of Python dict and deque helpers -/

/-- Lookup in an insertion-ordered association list (Python `d.get(k)`). -/
def dictGet {α : Type} (d : List (String × α)) (k : String) : Option α :=
  (d.find? (fun p => p.1 == k)).map (fun p => p.2)

/-- Update in an insertion-ordered association list (Python `d[k] = v`):
replace the entry in place when the key is present, append otherwise. -/
def dictSet {α : Type} : List (String × α) → String → α → List (String × α)
  | [], k, v => [(k, v)]
  | p :: rest, k, v => if p.1 == k then (k, v) :: rest else p :: dictSet rest k v

/-- The last `n` elements of a list, in order: the contents of a
`deque(maxlen=n)` after appending the whole list. -/
def takeLast {α : Type} (n : Nat) (l : List α) : List α :=
  (l.reverse.take n).reverse

/-- Python `str.upper()`: character-wise upper-casing (the same function as
`String.toUpper`, stated by structural recursion over the characters). -/
def pyUpper (s : String) : String := String.mk (s.data.map Char.toUpper)

theorem dictGet_dictSet_self {α : Type} (d : List (String × α)) (k : String) (v : α) :
    dictGet (dictSet d k v) k = some v := by
  induction d with
  | nil => simp [dictGet, dictSet]
  | cons p rest ih =>
    by_cases h : p.1 = k
    · simp [dictGet, dictSet, h]
    · have hb : (p.1 == k) = false := by simp [h]
      simp only [dictSet, hb, if_false, dictGet, List.find?]
      exact ih

theorem dictGet_dictSet_ne {α : Type} (d : List (String × α)) (k k' : String) (v : α)
    (h : k' ≠ k) : dictGet (dictSet d k v) k' = dictGet d k' := by
  induction d with
  | nil =>
    have hb : (k == k') = false := by simp [Ne.symm h]
    simp [dictGet, dictSet, List.find?, hb]
  | cons p rest ih =>
    by_cases hp : p.1 = k
    · have hb : (p.1 == k) = true := by simp [hp]
      have hb'' : (k == k') = false := by simp [Ne.symm h]
      have hb''' : (p.1 == k') = false := by simp [hp, Ne.symm h]
      simp only [dictSet, hb, if_true, dictGet, List.find?, hb'', hb''']
    · have hb : (p.1 == k) = false := by simp [hp]
      simp only [dictSet, hb, if_false, dictGet, List.find?]
      by_cases hp' : p.1 = k'
      · simp [hp']
      · have hb' : (p.1 == k') = false := by simp [hp']
        rw [hb']
        exact ih

theorem takeLast_nil {α : Type} (n : Nat) : takeLast n ([] : List α) = [] := by
  simp [takeLast]

theorem takeLast_zero {α : Type} (l : List α) : takeLast 0 l = [] := by
  simp [takeLast]

/-- Re-truncating an already truncated deque while appending one element is
the same as truncating the untruncated history. -/
theorem takeLast_takeLast_append {α : Type} (n : Nat) (l : List α) (x : α) :
    takeLast n (takeLast n l ++ [x]) = takeLast n (l ++ [x]) := by
  cases n with
  | zero => simp [takeLast]
  | succ m =>
    simp only [takeLast, List.reverse_append, List.reverse_reverse,
      List.reverse_cons, List.reverse_nil, List.nil_append, List.cons_append,
      List.take_succ_cons, List.take_take]
    rw [min_eq_left (Nat.le_succ m)]

theorem takeLast_length {α : Type} (n : Nat) (l : List α) :
    (takeLast n l).length = min n l.length := by
  simp [takeLast]

/-- When the list has `N` elements, keeping the last `maxTicks` is the same
as keeping the last `min N maxTicks`. -/
theorem takeLast_min {α : Type} (n : Nat) (l : List α) :
    takeLast (min l.length n) l = takeLast n l := by
  rcases le_total l.length n with h | h
  · simp only [takeLast, min_eq_left h]
    rw [List.take_of_length_le (by simp), List.take_of_length_le (by simp [h])]
  · simp [min_eq_right h]

/-! ### Ingestion: `src/ingestion/data_normalizer.py`

Datetimes are rational seconds since the Unix epoch. A raw wire message is
the already-JSON-parsed record: each field is `Option`-valued (a missing
key), with numeric strings already read as exact rationals. -/

/-- `Tick` dataclass: one normalized executed trade. -/
structure Tick where
  symbol : String
  timestamp : ℚ
  price : ℚ
  quantity : ℚ
  trade_id : Option ℤ := none
  is_buyer_maker : Option Bool := none
deriving DecidableEq

/-- A parsed Binance trade wire message (the dict `normalize_tick` receives):
`e` event type, `E` event time (ms), `T` trade time (ms), `s` symbol,
`p` price, `q` quantity, `t` trade id, `m` buyer-maker flag. -/
structure RawMessage where
  e : Option String := none
  E : Option ℤ := none
  T : Option ℤ := none
  s : Option String := none
  p : Option ℚ := none
  q : Option ℚ := none
  t : Option ℤ := none
  m : Option Bool := none

/-- `normalize_tick`: Binance trade message → `Tick`, or `None` when the
event is not a trade, no time field is present, the symbol is empty or the
price is not positive. Python's `raw.get("T") or raw.get("E")` treats a
literal `T = 0` as falsy and falls through to `E`. -/
def normalize_tick (raw : RawMessage) : Option Tick :=
  if raw.e ≠ some "trade" then none
  else
    let trade_time_ms : Option ℤ :=
      match raw.T with
      | none => raw.E
      | some v => if v = 0 then raw.E else some v
    match trade_time_ms with
    | none => none
    | some ms =>
      let timestamp : ℚ := (ms : ℚ) / 1000
      let symbol := pyUpper (raw.s.getD "")
      let price := raw.p.getD 0
      let quantity := raw.q.getD 0
      if symbol = "" ∨ price ≤ 0 then none
      else some { symbol := symbol, timestamp := timestamp, price := price,
                  quantity := quantity, trade_id := raw.t, is_buyer_maker := raw.m }

/-- A JSON field that `float()` is applied to: the key may be absent from
the dict, present with a value that `float()` parses (carried as the exact
rational), or present with a value on which `float()` raises
`ValueError`/`TypeError` (a non-numeric string, `null`, a nested object).
The three cases must stay distinct because `dict.get` falls back only on an
absent key, while a present-but-unparseable value raises inside `float()`
and the whole record is dropped by the `except` clause. -/
inductive NdjsonField where
  | absent
  | num (q : ℚ)
  | malformed
deriving DecidableEq

/-- A parsed NDJSON replay record (the dict `normalize_from_ndjson`
receives): `ts` is the ISO-8601 timestamp already parsed to seconds, and a
`none` in `ts`/`symbol`/`price` stands for a missing key or an unparseable
value — either way the source raises `KeyError`/`ValueError` and returns
`None`, so one constructor suffices there. `size` and `quantity` are
`NdjsonField`s because for them absent and malformed lead to different
outcomes (fallback vs. drop). -/
structure NdjsonRecord where
  symbol : Option String := none
  ts : Option ℚ := none
  price : Option ℚ := none
  size : NdjsonField := .absent
  quantity : NdjsonField := .absent

/-- `float(record.get("size", record.get("quantity", 0)))` from
data_normalizer.py line 111: the parsed quantity, or `none` when the field
selected by the `get` chain is present but `float()` raises on it (a
`ValueError`/`TypeError` the `except` clause turns into a dropped record).
Both keys absent parses `float(0) = 0`. -/
def ndjsonSize (record : NdjsonRecord) : Option ℚ :=
  match record.size with
  | .num q => some q
  | .malformed => none
  | .absent =>
    match record.quantity with
    | .num q => some q
    | .malformed => none
    | .absent => some 0

/-- `normalize_from_ndjson`: NDJSON record → `Tick`, or `None` when `ts`,
`symbol` or `price` is missing/unparseable, or when the `size`/`quantity`
field selected by the fallback chain is present but unparseable
(`ndjsonSize record = none`). Note: unlike `normalize_tick`, this path
performs no positivity or non-empty-symbol validation. -/
def normalize_from_ndjson (record : NdjsonRecord) : Option Tick :=
  match record.ts, record.symbol, record.price with
  | some ts, some sym, some p =>
    (ndjsonSize record).map (fun q =>
      { symbol := pyUpper sym, timestamp := ts, price := p, quantity := q })
  | _, _, _ => none

/-! ### Processing: `src/processing/ohlcv.py` -/

/-- `OHLCVBar` dataclass. `open_` stands for the Python field `open`
(a Lean keyword); `timestamp` is the bar open time in epoch seconds. -/
structure OHLCVBar where
  symbol : String
  timestamp : ℚ
  open_ : ℚ
  high : ℚ
  low : ℚ
  close : ℚ
  volume : ℚ
  vwap : ℚ := 0
  trade_count : ℕ := 0
deriving DecidableEq

/-- `BarBuilder` dataclass: the mutable per-symbol accumulator. The source
initialises `low` to `float("inf")`; that sentinel is unobservable (it is
overwritten by the first tick, and `build` returns `None` while
`trade_count = 0`), so it is embedded as `0` like the other fields. -/
structure BarBuilder where
  symbol : String
  bar_start : Option ℚ := none
  open_ : ℚ := 0
  high : ℚ := 0
  low : ℚ := 0
  close : ℚ := 0
  volume : ℚ := 0
  vwap_numerator : ℚ := 0
  trade_count : ℕ := 0
deriving DecidableEq

/-- `BarBuilder.add_tick`: first tick sets `open/high/low` and `bar_start`;
every tick updates extrema, close, volume, vwap numerator and the count. -/
def BarBuilder.add_tick (b : BarBuilder) (tick : Tick) : BarBuilder :=
  let b :=
    if b.bar_start = none then
      { b with bar_start := some tick.timestamp, open_ := tick.price,
               high := tick.price, low := tick.price }
    else b
  { b with high := max b.high tick.price, low := min b.low tick.price,
           close := tick.price, volume := b.volume + tick.quantity,
           vwap_numerator := b.vwap_numerator + tick.price * tick.quantity,
           trade_count := b.trade_count + 1 }

/-- `BarBuilder.build`: `None` when no tick accumulated, else the OHLCV bar
with `vwap = vwap_numerator / volume` when `volume > 0`, else `close`. -/
def BarBuilder.build (b : BarBuilder) (bar_timestamp : ℚ) : Option OHLCVBar :=
  if b.trade_count = 0 then none
  else
    some { symbol := b.symbol, timestamp := bar_timestamp, open_ := b.open_,
           high := b.high, low := b.low, close := b.close, volume := b.volume,
           vwap := if b.volume > 0 then b.vwap_numerator / b.volume else b.close,
           trade_count := b.trade_count }

/-- `BarBuilder.reset` (the source resets `low` to `float("inf")`, embedded
as `0`; see `BarBuilder`). -/
def BarBuilder.reset (b : BarBuilder) : BarBuilder :=
  { b with bar_start := none, open_ := 0, high := 0, low := 0, close := 0,
           volume := 0, vwap_numerator := 0, trade_count := 0 }

/-! ### Processing: `src/processing/resampler.py` -/

/-- `TimeSeriesResampler.TIMEFRAME_SECONDS`. -/
def TIMEFRAME_SECONDS : List (String × ℕ) :=
  [("1S", 1), ("1T", 60), ("5T", 300), ("15T", 900), ("1H", 3600)]

/-- `TimeSeriesResampler` state: per-symbol builders, current bar
timestamps and completed-bar lists (callbacks, which only observe completed
bars, are not represented). -/
structure TimeSeriesResampler where
  timeframe : String
  interval_seconds : ℕ
  builders : List (String × BarBuilder) := []
  current_bar_time : List (String × ℚ) := []
  completed_bars : List (String × List OHLCVBar) := []
deriving DecidableEq

/-- `TimeSeriesResampler.__init__`: unknown timeframes default to 60 s. -/
def mkResampler (timeframe : String) : TimeSeriesResampler :=
  { timeframe := timeframe,
    interval_seconds := (dictGet TIMEFRAME_SECONDS timeframe).getD 60 }

/-- `TimeSeriesResampler._get_bar_timestamp`: floor the tick time to the
interval boundary, epoch-relative. -/
def get_bar_timestamp (interval_seconds : ℕ) (tick_time : ℚ) : ℚ :=
  (⌊tick_time / (interval_seconds : ℚ)⌋ : ℚ) * (interval_seconds : ℚ)

/-- `TimeSeriesResampler.add_tick`: returns the updated state and the
completed bar, if the tick crossed into a new interval. After the
initialisation branch the symbol is always present in `builders` and
`current_bar_time`; the `getD` defaults are therefore unreachable. -/
def TimeSeriesResampler.add_tick (rs : TimeSeriesResampler) (tick : Tick) :
    TimeSeriesResampler × Option OHLCVBar :=
  let symbol := tick.symbol
  let bar_time := get_bar_timestamp rs.interval_seconds tick.timestamp
  let rs :=
    if dictGet rs.builders symbol = none then
      { rs with builders := dictSet rs.builders symbol { symbol := symbol },
                current_bar_time := dictSet rs.current_bar_time symbol bar_time }
    else rs
  let cur := (dictGet rs.current_bar_time symbol).getD bar_time
  if bar_time > cur then
    let builder := (dictGet rs.builders symbol).getD { symbol := symbol }
    let completed_bar := builder.build cur
    let rs :=
      match completed_bar with
      | some bar =>
        let updated := dictSet rs.completed_bars symbol
          ((dictGet rs.completed_bars symbol).getD [] ++ [bar])
        { rs with completed_bars := updated }
      | none => rs
    let rs :=
      { rs with builders := dictSet rs.builders symbol builder.reset,
                current_bar_time := dictSet rs.current_bar_time symbol bar_time }
    let b2 := ((dictGet rs.builders symbol).getD { symbol := symbol }).add_tick tick
    ({ rs with builders := dictSet rs.builders symbol b2 }, completed_bar)
  else
    let b2 := ((dictGet rs.builders symbol).getD { symbol := symbol }).add_tick tick
    ({ rs with builders := dictSet rs.builders symbol b2 }, none)

/-- `TimeSeriesResampler.get_current_bar`: snapshot-build the open bar. -/
def TimeSeriesResampler.get_current_bar (rs : TimeSeriesResampler) (symbol : String) :
    Option OHLCVBar :=
  match dictGet rs.builders (pyUpper symbol), dictGet rs.current_bar_time (pyUpper symbol) with
  | some b, some ct => b.build ct
  | _, _ => none

/-- Feeding a tick stream through the resampler (the loop of
`resample_ticks_to_bars`), keeping the final state. -/
def processTicks (rs : TimeSeriesResampler) (ticks : List Tick) : TimeSeriesResampler :=
  ticks.foldl (fun s t => (s.add_tick t).1) rs

/-! ### Storage: `src/storage/memory_store.py`

The lock only serialises access and is not represented. A deque is a list
plus the `maxlen` it was created with; `ticks_maxlen` records the quirk
that a `SymbolData` created by `add_bar` keeps the dataclass default tick
capacity 100000 rather than the store's `max_ticks`. -/

/-- `SymbolData` dataclass. -/
structure SymbolData where
  symbol : String
  ticks : List Tick := []
  ticks_maxlen : ℕ := 100000
  bars : List (String × List OHLCVBar) := []
deriving DecidableEq

/-- `MemoryStore` state. -/
structure MemoryStore where
  max_ticks : ℕ := 100000
  max_bars : ℕ := 10000
  data : List (String × SymbolData) := []
  tick_count : ℕ := 0
  last_update : Option ℚ := none
deriving DecidableEq

/-- `MemoryStore.__init__`. -/
def mkMemoryStore (max_ticks : ℕ := 100000) (max_bars : ℕ := 10000) : MemoryStore :=
  { max_ticks := max_ticks, max_bars := max_bars }

/-- `MemoryStore.add_tick`: upper-case the symbol, create the symbol slot
with a tick deque of capacity `max_ticks` if needed, append (the deque
drops from the left on overflow), bump the counter, set `last_update`. -/
def MemoryStore.add_tick (st : MemoryStore) (tick : Tick) : MemoryStore :=
  let symbol := pyUpper tick.symbol
  let d :=
    match dictGet st.data symbol with
    | some d => d
    | none => { symbol := symbol, ticks_maxlen := st.max_ticks }
  let d := { d with ticks := takeLast d.ticks_maxlen (d.ticks ++ [tick]) }
  { st with data := dictSet st.data symbol d,
            tick_count := st.tick_count + 1,
            last_update := some tick.timestamp }

/-- `MemoryStore.add_bar`: upper-case the symbol, create the symbol slot if
needed (with the dataclass-default tick capacity), append to the
per-timeframe bar deque of capacity `max_bars`. -/
def MemoryStore.add_bar (st : MemoryStore) (bar : OHLCVBar) (timeframe : String) :
    MemoryStore :=
  let symbol := pyUpper bar.symbol
  let d :=
    match dictGet st.data symbol with
    | some d => d
    | none => { symbol := symbol }
  let tfBars := (dictGet d.bars timeframe).getD []
  let d := { d with bars := dictSet d.bars timeframe (takeLast st.max_bars (tfBars ++ [bar])) }
  { st with data := dictSet st.data symbol d }

/-- Python list slicing `lst[-n:]`: the last `n` elements, except that
`n = 0` yields the whole list (`lst[-0:] = lst`). -/
def pySliceLast {α : Type} (l : List α) : Option ℕ → List α
  | none => l
  | some 0 => l
  | some n => takeLast n l

/-- `MemoryStore.get_ticks`: most recent ticks in insertion order; empty
for an unknown symbol. -/
def MemoryStore.get_ticks (st : MemoryStore) (symbol : String) (n : Option ℕ := none) :
    List Tick :=
  match dictGet st.data (pyUpper symbol) with
  | none => []
  | some d => pySliceLast d.ticks n

/-- `MemoryStore.get_bars`. -/
def MemoryStore.get_bars (st : MemoryStore) (symbol : String) (timeframe : String)
    (n : Option ℕ := none) : List OHLCVBar :=
  match dictGet st.data (pyUpper symbol) with
  | none => []
  | some d =>
    match dictGet d.bars timeframe with
    | none => []
    | some bars => pySliceLast bars n

/-- `MemoryStore.get_prices`: the close prices as a timestamp-indexed
series, one `(index, value)` pair per stored bar. -/
def MemoryStore.get_prices (st : MemoryStore) (symbol : String) (timeframe : String)
    (n : Option ℕ := none) : List (ℚ × ℚ) :=
  (st.get_bars symbol timeframe n).map (fun bar => (bar.timestamp, bar.close))

/-- `series[~series.index.duplicated(keep='last')]` as `app.py` applies it
downstream of `get_prices`: keep an entry only when its index does not
recur later. -/
def dedupKeepLast : List (ℚ × ℚ) → List (ℚ × ℚ)
  | [] => []
  | p :: rest =>
    if rest.any (fun q => q.1 == p.1) then dedupKeepLast rest
    else p :: dedupKeepLast rest

/-! ### Analytics: `src/analytics/hedge_ratio.py`

The input is the paired sample after `pd.DataFrame({"y": y, "x": x})
.dropna()`: a list of `(y, x)` rows. The embedded path is the repository's
own OLS implementation (the numpy fallback, lines 74-112; the optional
statsmodels branch delegates the same regression to an external library).
`std_error` is a floating square root no claim mentions and is omitted
from the embedded result. -/

/-- `HedgeRatioResult` dataclass (without `std_error`, see above). -/
structure HedgeRatioResult where
  beta : ℚ
  alpha : ℚ
  r_squared : ℚ
deriving DecidableEq

/-- `np.mean`. -/
def qMean (l : List ℚ) : ℚ := l.sum / (l.length : ℚ)

/-- `calculate_hedge_ratio` on the aligned, null-free paired rows. -/
def calculate_hedge_ratio (df : List (ℚ × ℚ)) : Option HedgeRatioResult :=
  if df.length < 10 then none
  else
    let y_clean := df.map Prod.fst
    let x_clean := df.map Prod.snd
    let x_mean := qMean x_clean
    let y_mean := qMean y_clean
    let numerator := (df.map (fun p => (p.2 - x_mean) * (p.1 - y_mean))).sum
    let denominator := (x_clean.map (fun x => (x - x_mean) ^ 2)).sum
    if denominator = 0 then none
    else
      let beta := numerator / denominator
      let alpha := y_mean - beta * x_mean
      let ss_res := (df.map (fun p => (p.1 - (alpha + beta * p.2)) ^ 2)).sum
      let ss_tot := (y_clean.map (fun y => (y - y_mean) ^ 2)).sum
      let r_squared := if ss_tot = 0 then 0 else 1 - ss_res / ss_tot
      some { beta := beta, alpha := alpha, r_squared := r_squared }

/-- The design variance `Σ(x−x̄)²` the source tests against zero. -/
def designVariance (df : List (ℚ × ℚ)) : ℚ :=
  let x_clean := df.map Prod.snd
  (x_clean.map (fun x => (x - qMean x_clean) ^ 2)).sum

/-- The total sum of squares `SST = Σ(y−ȳ)²`. -/
def totalSumSquares (df : List (ℚ × ℚ)) : ℚ :=
  let y_clean := df.map Prod.fst
  (y_clean.map (fun y => (y - qMean y_clean) ^ 2)).sum

/-! ### Analytics: `src/analytics/zscore.py`

pandas arithmetic is exact here except for the square root inside the
rolling standard deviation, which is kept as an explicit parameter
`sq : ℚ → ℚ` (the floating `sqrt`; it maps 0 to 0). A `none` entry is a
pandas NaN. -/

/-- The observations `pandas.rolling(window=w)` sees at position `i`. -/
def rollingWindow (s : List ℚ) (w : ℕ) (i : ℕ) : List ℚ :=
  takeLast w (s.take (i + 1))

/-- Sample variance (`ddof = 1`), defined for windows of length ≥ 2. -/
def sampleVar (win : List ℚ) : ℚ :=
  (win.map (fun x => (x - qMean win) ^ 2)).sum / ((win.length : ℚ) - 1)

/-- `series.rolling(window, min_periods).mean()`. -/
def rollingMean (s : List ℚ) (w minp : ℕ) : List (Option ℚ) :=
  (List.range s.length).map fun i =>
    let win := rollingWindow s w i
    if win.length < minp then none else some (qMean win)

/-- `series.rolling(window, min_periods).std()`: NaN below `min_periods`
and for single-observation windows (`ddof = 1`). -/
def rollingStd (sq : ℚ → ℚ) (s : List ℚ) (w minp : ℕ) : List (Option ℚ) :=
  (List.range s.length).map fun i =>
    let win := rollingWindow s w i
    if win.length < minp ∨ win.length < 2 then none
    else some (sq (sampleVar win))

/-- `rolling_std.replace(0, np.nan)`. -/
def replaceZeroWithNan (l : List (Option ℚ)) : List (Option ℚ) :=
  l.map fun o =>
    match o with
    | some v => if v = 0 then none else some v
    | none => none

/-- Index-aligned `series - other` with NaN propagation. -/
def seriesSub (s : List ℚ) (t : List (Option ℚ)) : List (Option ℚ) :=
  List.zipWith (fun a b => b.map (fun x => a - x)) s t

/-- Index-aligned `series / other` with NaN propagation. -/
def seriesDiv (s t : List (Option ℚ)) : List (Option ℚ) :=
  List.zipWith
    (fun a b =>
      match a, b with
      | some x, some y => some (x / y)
      | _, _ => none)
    s t

/-- `calculate_zscore` (zscore.py lines 9-44). -/
def calculate_zscore (sq : ℚ → ℚ) (series : List ℚ) (window : ℕ)
    (min_periods : Option ℕ := none) : List (Option ℚ) :=
  if series.length < 2 then []
  else
    let m := min_periods.getD (max 2 (window / 2))
    let rolling_mean := rollingMean series window m
    let rolling_std := replaceZeroWithNan (rollingStd sq series window m)
    seriesDiv (seriesSub series rolling_mean) rolling_std

/-! ### Alerts: `src/alerts/rule_engine.py`

Rule predicates are total Boolean functions (a predicate that raises is
skipped by the source exactly like one returning `False`). Message
templating renders text no claim mentions and is omitted. -/

inductive AlertType : Type
  | zscore_high
  | zscore_low
  | price_spike
  | correlation_break
  | stationarity_change
  | custom
deriving DecidableEq

inductive AlertSeverity : Type
  | info
  | warning
  | critical
deriving DecidableEq

/-- `AlertRule` dataclass (without `message_template`, see above). -/
structure AlertRule where
  name : String
  alert_type : AlertType
  condition : ℚ → Bool
  severity : AlertSeverity := .warning
  cooldown_seconds : ℤ := 60

/-- `Alert` dataclass (without `message`/`metadata`). -/
structure Alert where
  timestamp : ℚ
  alert_type : AlertType
  severity : AlertSeverity
  value : ℚ
  symbol : Option String := none
deriving DecidableEq

/-- `AlertEngine.DEFAULT_RULES`. -/
def DEFAULT_RULES : List AlertRule :=
  [{ name := "zscore_high", alert_type := .zscore_high,
     condition := fun z => decide (2 < z), severity := .warning, cooldown_seconds := 60 },
   { name := "zscore_low", alert_type := .zscore_low,
     condition := fun z => decide (z < -2), severity := .warning, cooldown_seconds := 60 },
   { name := "zscore_critical_high", alert_type := .zscore_high,
     condition := fun z => decide (3 < z), severity := .critical, cooldown_seconds := 120 },
   { name := "zscore_critical_low", alert_type := .zscore_low,
     condition := fun z => decide (z < -3), severity := .critical, cooldown_seconds := 120 }]

/-- The engine's mutable state (`_history`, `_last_triggered`); the rules
list is passed separately since `check_zscore` only reads it. -/
structure AlertEngineState where
  history : List Alert := []
  last_triggered : List (String × ℚ) := []
  max_history : ℕ := 100
deriving DecidableEq

/-- `AlertEngine.add_rule`: append to the rules list. -/
def add_rule (rules : List AlertRule) (rule : AlertRule) : List AlertRule :=
  rules ++ [rule]

/-- One iteration of the rule loop in `AlertEngine.check_zscore`. -/
def check_rule_step (z : ℚ) (symbol : Option String) (timestamp : ℚ)
    (acc : AlertEngineState × List Alert) (rule : AlertRule) :
    AlertEngineState × List Alert :=
  let (st, triggered) := acc
  if rule.alert_type = .zscore_high ∨ rule.alert_type = .zscore_low then
    if rule.condition z then
      let rule_key := rule.name ++ "_" ++ symbol.getD "all"
      let fire : Bool :=
        match dictGet st.last_triggered rule_key with
        | none => true
        | some last_time =>
          if timestamp - last_time < (rule.cooldown_seconds : ℚ) then false else true
      if fire then
        let alert : Alert :=
          { timestamp := timestamp, alert_type := rule.alert_type,
            severity := rule.severity, value := z, symbol := symbol }
        ({ st with history := takeLast st.max_history (st.history ++ [alert]),
                   last_triggered := dictSet st.last_triggered rule_key timestamp },
         triggered ++ [alert])
      else (st, triggered)
    else (st, triggered)
  else (st, triggered)

/-- `AlertEngine.check_zscore`: evaluate every rule in insertion order,
returning the updated state and the list of triggered alerts. -/
def check_zscore (rules : List AlertRule) (st : AlertEngineState) (z : ℚ)
    (symbol : Option String) (timestamp : ℚ) : AlertEngineState × List Alert :=
  rules.foldl (check_rule_step z symbol timestamp) (st, [])

/-- One `check_zscore` invocation's arguments. -/
structure ZCall where
  z : ℚ
  symbol : Option String := none
  timestamp : ℚ
deriving DecidableEq

/-- One `check_zscore` call within a run: thread the state, collect the
triggered alerts. -/
def runStep (rules : List AlertRule) (acc : AlertEngineState × List Alert) (c : ZCall) :
    AlertEngineState × List Alert :=
  let r := check_zscore rules acc.1 c.z c.symbol c.timestamp
  (r.1, acc.2 ++ r.2)

/-- A sequence of `check_zscore` calls, collecting every triggered alert. -/
def run_checks (rules : List AlertRule) (st : AlertEngineState) (calls : List ZCall) :
    AlertEngineState × List Alert :=
  calls.foldl (runStep rules) (st, [])

/-- The engine state after a prefix of `check_zscore` calls. -/
def stateAfter (rules : List AlertRule) (st : AlertEngineState) (calls : List ZCall) :
    AlertEngineState :=
  (run_checks rules st calls).1

/-! ### C5: normalization validation -/

/-- C5 counterexample: the NDJSON replay path accepts a record with an
empty symbol and a negative price and produces a `Tick` from it, so the
claim that both normalization paths drop such records is false. -/
theorem normalize_from_ndjson_invalid_cex :
    normalize_from_ndjson { symbol := some "", ts := some 0, price := some (-1) } =
      some { symbol := "", timestamp := 0, price := -1, quantity := 0 } ∧
    ¬ (0 < (-1 : ℚ) ∧ ("" : String) ≠ "") := by
  decide

/-- C5 (amended): the live wire-format path guarantees `price > 0` and a
non-empty symbol and drops violating records; the NDJSON replay path
performs no positivity or non-emptiness check: when `ts`, `symbol` and
`price` are present and parse, its result is exactly
`(ndjsonSize record).map` of a tick carrying the fields unchanged — a tick
whenever the `size`/`quantity` fallback chain parses, and a drop
(`none`) whenever the selected `size`/`quantity` value is present but
unparseable; in particular an unparseable `size`/`quantity` always drops
the record. -/
theorem normalize_validation_contract :
    (∀ (raw : RawMessage) (t : Tick),
        normalize_tick raw = some t → 0 < t.price ∧ t.symbol ≠ "") ∧
    (∀ raw : RawMessage,
        pyUpper (raw.s.getD "") = "" ∨ raw.p.getD 0 ≤ 0 → normalize_tick raw = none) ∧
    (∀ (record : NdjsonRecord) (ts : ℚ) (sym : String) (p : ℚ),
        record.ts = some ts → record.symbol = some sym → record.price = some p →
        normalize_from_ndjson record =
          (ndjsonSize record).map (fun q =>
            { symbol := pyUpper sym, timestamp := ts, price := p, quantity := q })) ∧
    (∀ record : NdjsonRecord,
        ndjsonSize record = none → normalize_from_ndjson record = none) := by
  refine ⟨?_, ?_, ?_, ?_⟩
  · intro raw t h
    simp only [normalize_tick] at h
    split at h
    · exact absurd h (by simp)
    · split at h
      · exact absurd h (by simp)
      · split at h
        · exact absurd h (by simp)
        · rename_i hcond
          push_neg at hcond
          obtain ⟨hsym, hprice⟩ := hcond
          obtain rfl : _ = t := Option.some.inj h
          exact ⟨lt_of_not_le (by simpa using hprice), hsym⟩
  · intro raw h
    simp only [normalize_tick]
    by_cases he : raw.e ≠ some "trade"
    · rw [if_pos he]
    · rw [if_neg he]
      rcases htm : (match raw.T with
        | none => raw.E
        | some v => if v = 0 then raw.E else some v) with _ | ms
      · rw [htm]
      · rw [htm]
        simp [h]
  · intro record ts sym p h1 h2 h3
    simp [normalize_from_ndjson, h1, h2, h3]
  · intro record h
    rcases hts : record.ts with _ | ts <;>
      rcases hsym : record.symbol with _ | sym <;>
        rcases hp : record.price with _ | p <;>
          simp [normalize_from_ndjson, hts, hsym, hp, h]

/-! ### C7 and C9: hedge-ratio OLS -/

/-- The OLS slope as the source computes it (`numerator / denominator`). -/
def hedgeBeta (df : List (ℚ × ℚ)) : ℚ :=
  (df.map (fun p => (p.2 - qMean (df.map Prod.snd)) * (p.1 - qMean (df.map Prod.fst)))).sum /
    designVariance df

/-- The OLS intercept `α = ȳ − β·x̄`. -/
def hedgeAlpha (df : List (ℚ × ℚ)) : ℚ :=
  qMean (df.map Prod.fst) - hedgeBeta df * qMean (df.map Prod.snd)

/-- The residual sum of squares `SSR = Σ(y − (α+β·x))²`. -/
def hedgeSSRes (df : List (ℚ × ℚ)) : ℚ :=
  (df.map (fun p => (p.1 - (hedgeAlpha df + hedgeBeta df * p.2)) ^ 2)).sum

/-- `calculate_hedge_ratio` in terms of the named subexpressions. -/
theorem calculate_hedge_ratio_eq (df : List (ℚ × ℚ)) :
    calculate_hedge_ratio df =
      if df.length < 10 then none
      else if designVariance df = 0 then none
      else
        some { beta := hedgeBeta df, alpha := hedgeAlpha df,
               r_squared :=
                 if totalSumSquares df = 0 then 0
                 else 1 - hedgeSSRes df / totalSumSquares df } := rfl

/-- C7: the hedge-ratio OLS returns no result on fewer than 10 aligned
observations, returns no result on a zero design variance, and returns
`R² = 0` when `SST = 0` with a non-singular design. -/
theorem hedge_error_contract (df : List (ℚ × ℚ)) :
    (df.length < 10 → calculate_hedge_ratio df = none) ∧
    (designVariance df = 0 → calculate_hedge_ratio df = none) ∧
    (10 ≤ df.length → designVariance df ≠ 0 → totalSumSquares df = 0 →
      calculate_hedge_ratio df =
        some { beta := hedgeBeta df, alpha := hedgeAlpha df, r_squared := 0 }) := by
  refine ⟨?_, ?_, ?_⟩
  · intro h
    rw [calculate_hedge_ratio_eq, if_pos h]
  · intro h
    rw [calculate_hedge_ratio_eq]
    by_cases hl : df.length < 10
    · rw [if_pos hl]
    · rw [if_neg hl, if_pos h]
  · intro hlen hden hsst
    rw [calculate_hedge_ratio_eq, if_neg (by omega), if_neg hden, if_pos hsst]

/-- C7 witness: 9 ascending rows are insufficient; 10 rows with constant
`x` are singular; 10 rows with constant `y` and ascending `x` give a
result with `R² = 0`. -/
theorem hedge_error_contract_witness :
    calculate_hedge_ratio
      [((10 : ℚ), (1 : ℚ)), (11, 2), (12, 3), (13, 4), (14, 5), (15, 6), (16, 7),
       (17, 8), (18, 9)] = none ∧
    calculate_hedge_ratio
      [((10 : ℚ), (5 : ℚ)), (11, 5), (12, 5), (13, 5), (14, 5), (15, 5), (16, 5),
       (17, 5), (18, 5), (19, 5)] = none ∧
    calculate_hedge_ratio
      [((7 : ℚ), (1 : ℚ)), (7, 2), (7, 3), (7, 4), (7, 5), (7, 6), (7, 7), (7, 8),
       (7, 9), (7, 10)] = some { beta := 0, alpha := 7, r_squared := 0 } := by
  refine ⟨?_, ?_, ?_⟩
  · exact (hedge_error_contract _).1 (by norm_num)
  · exact (hedge_error_contract _).2.1 (by norm_num [designVariance, qMean])
  · rw [(hedge_error_contract _).2.2 (by norm_num)
      (by norm_num [designVariance, qMean]) (by norm_num [totalSumSquares, qMean])]
    norm_num [hedgeBeta, hedgeAlpha, designVariance, qMean]

theorem sum_map_affine (c₁ c₀ : ℚ) (l : List ℚ) :
    (l.map (fun y => c₁ * y + c₀)).sum = c₁ * l.sum + l.length * c₀ := by
  induction l with
  | nil => simp
  | cons a l ih => simp [ih]; ring

theorem qMean_affine (c₁ c₀ : ℚ) (l : List ℚ) (hl : l ≠ []) :
    qMean (l.map (fun y => c₁ * y + c₀)) = c₁ * qMean l + c₀ := by
  have hn : (l.length : ℚ) ≠ 0 := by
    have := List.length_pos.mpr hl
    positivity
  simp only [qMean, List.length_map, sum_map_affine]
  field_simp
  ring

theorem map_fst_affine (df : List (ℚ × ℚ)) (c₁ c₀ : ℚ) :
    (df.map (fun p => (c₁ * p.1 + c₀, p.2))).map Prod.fst =
      (df.map Prod.fst).map (fun y => c₁ * y + c₀) := by
  simp [List.map_map, Function.comp_def]

theorem map_snd_affine (df : List (ℚ × ℚ)) (c₁ c₀ : ℚ) :
    (df.map (fun p => (c₁ * p.1 + c₀, p.2))).map Prod.snd = df.map Prod.snd := by
  simp [List.map_map, Function.comp_def]

theorem designVariance_affine (df : List (ℚ × ℚ)) (c₁ c₀ : ℚ) :
    designVariance (df.map (fun p => (c₁ * p.1 + c₀, p.2))) = designVariance df := by
  unfold designVariance
  rw [map_snd_affine]

theorem hedgeBeta_affine (df : List (ℚ × ℚ)) (c₁ c₀ : ℚ) (hdf : df ≠ []) :
    hedgeBeta (df.map (fun p => (c₁ * p.1 + c₀, p.2))) = c₁ * hedgeBeta df := by
  have hmfst : df.map Prod.fst ≠ [] := by simpa using hdf
  unfold hedgeBeta
  rw [designVariance_affine, map_fst_affine, map_snd_affine,
    qMean_affine _ _ _ hmfst, List.map_map]
  have hfun : ((fun p : ℚ × ℚ =>
        (p.2 - qMean (df.map Prod.snd)) *
          (p.1 - (c₁ * qMean (df.map Prod.fst) + c₀))) ∘
        (fun p : ℚ × ℚ => (c₁ * p.1 + c₀, p.2))) =
      fun p : ℚ × ℚ =>
        c₁ * ((p.2 - qMean (df.map Prod.snd)) * (p.1 - qMean (df.map Prod.fst))) := by
    funext p
    simp only [Function.comp_def]
    ring
  rw [hfun, List.sum_map_mul_left, mul_div_assoc]

theorem hedgeAlpha_affine (df : List (ℚ × ℚ)) (c₁ c₀ : ℚ) (hdf : df ≠ []) :
    hedgeAlpha (df.map (fun p => (c₁ * p.1 + c₀, p.2))) = c₁ * hedgeAlpha df + c₀ := by
  have hmfst : df.map Prod.fst ≠ [] := by simpa using hdf
  unfold hedgeAlpha
  rw [map_fst_affine, map_snd_affine, qMean_affine _ _ _ hmfst,
    hedgeBeta_affine _ _ _ hdf]
  ring

/-- C9: transforming the dependent variable affinely (`y ↦ c₁·y + c₀` with
`c₁ ≠ 0`) transforms the OLS coefficients exactly as `β' = c₁·β`,
`α' = c₁·α + c₀` (exact rational arithmetic). -/
theorem hedge_affine_equivariance (df : List (ℚ × ℚ)) (c₁ c₀ : ℚ) (hc : c₁ ≠ 0)
    (r : HedgeRatioResult) (h : calculate_hedge_ratio df = some r) :
    ∃ r' : HedgeRatioResult,
      calculate_hedge_ratio (df.map (fun p => (c₁ * p.1 + c₀, p.2))) = some r' ∧
      r'.beta = c₁ * r.beta ∧ r'.alpha = c₁ * r.alpha + c₀ := by
  rw [calculate_hedge_ratio_eq] at h
  by_cases hl : df.length < 10
  · rw [if_pos hl] at h
    exact absurd h (by simp)
  · rw [if_neg hl] at h
    by_cases hd : designVariance df = 0
    · rw [if_pos hd] at h
      exact absurd h (by simp)
    · rw [if_neg hd] at h
      obtain rfl := Option.some.inj h
      have hdf : df ≠ [] := by
        intro he
        rw [he] at hl
        simp at hl
      have hcalc := calculate_hedge_ratio_eq (df.map (fun p => (c₁ * p.1 + c₀, p.2)))
      rw [if_neg (by simpa using hl), if_neg (by rwa [designVariance_affine])] at hcalc
      exact ⟨_, hcalc, by simpa using hedgeBeta_affine df c₁ c₀ hdf,
        by simpa using hedgeAlpha_affine df c₁ c₀ hdf⟩

/-- C9 witness: on the 10-point sample `y = x + 9`, OLS gives
`(β, α) = (1, 9)`; after `y ↦ 2·y + 3` it gives `(2, 21)`. -/
theorem hedge_affine_equivariance_witness :
    ∃ r' : HedgeRatioResult,
      calculate_hedge_ratio
        (([((10 : ℚ), (1 : ℚ)), (11, 2), (12, 3), (13, 4), (14, 5), (15, 6), (16, 7),
           (17, 8), (18, 9), (19, 10)]).map (fun p => (2 * p.1 + 3, p.2))) = some r' ∧
      r'.beta = 2 * (1 : ℚ) ∧ r'.alpha = 2 * (9 : ℚ) + 3 := by
  have h : calculate_hedge_ratio
      [((10 : ℚ), (1 : ℚ)), (11, 2), (12, 3), (13, 4), (14, 5), (15, 6), (16, 7),
       (17, 8), (18, 9), (19, 10)] = some { beta := 1, alpha := 9, r_squared := 1 } := by
    rw [calculate_hedge_ratio_eq, if_neg (by norm_num),
      if_neg (by norm_num [designVariance, qMean])]
    norm_num [hedgeBeta, hedgeAlpha, hedgeSSRes, designVariance, totalSumSquares, qMean]
  have := hedge_affine_equivariance _ 2 3 (by norm_num) _ h
  simpa using this

/-! ### C6: `get_prices` and duplicate timestamps -/

theorem mem_dedupKeepLast (l : List (ℚ × ℚ)) : ∀ p ∈ dedupKeepLast l, p ∈ l := by
  induction l with
  | nil => simp [dedupKeepLast]
  | cons q rest ih =>
    intro p hp
    by_cases hq : rest.any (fun r => r.1 == q.1) = true
    · rw [dedupKeepLast, if_pos hq] at hp
      exact List.mem_cons_of_mem _ (ih p hp)
    · rw [dedupKeepLast, if_neg hq] at hp
      rcases List.mem_cons.mp hp with hp | hp
      · exact hp ▸ List.mem_cons_self _ _
      · exact List.mem_cons_of_mem _ (ih p hp)

theorem dedupKeepLast_fst_nodup (l : List (ℚ × ℚ)) :
    ((dedupKeepLast l).map Prod.fst).Nodup := by
  induction l with
  | nil => simp [dedupKeepLast]
  | cons p rest ih =>
    by_cases h : rest.any (fun q => q.1 == p.1) = true
    · rw [dedupKeepLast, if_pos h]
      exact ih
    · rw [dedupKeepLast, if_neg h]
      rw [List.map_cons, List.nodup_cons]
      refine ⟨?_, ih⟩
      intro hmem
      obtain ⟨q, hq, hqp⟩ := List.mem_map.mp hmem
      have hq' : q ∈ rest := mem_dedupKeepLast rest q hq
      exact h (List.any_eq_true.mpr ⟨q, hq', by simp [hqp]⟩)

/-- Store with two bars sharing the timestamp 0 (closes 1 then 2). -/
def dupBarStore : MemoryStore :=
  ((mkMemoryStore).add_bar
      { symbol := "BTC", timestamp := 0, open_ := 1, high := 1, low := 1, close := 1,
        volume := 1, vwap := 1, trade_count := 1 } "1T").add_bar
    { symbol := "BTC", timestamp := 0, open_ := 1, high := 1, low := 1, close := 2,
      volume := 1, vwap := 1, trade_count := 1 } "1T"

/-- C6 counterexample: with two stored bars at the same timestamp,
`get_prices` returns both entries — it does not collapse duplicates to the
last write, so its index is not strictly increasing. -/
theorem get_prices_duplicates_cex :
    dupBarStore.get_prices "BTC" "1T" none = [(0, 1), (0, 2)] ∧
    dedupKeepLast (dupBarStore.get_prices "BTC" "1T" none) ≠
      dupBarStore.get_prices "BTC" "1T" none := by
  decide

/-- C6 (amended): `get_prices` returns one `(timestamp, close)` pair per
stored bar in insertion order and performs no duplicate collapsing itself;
the duplicate collapse keeping the last write happens downstream
(`app.py`, `~index.duplicated(keep='last')`), after which each timestamp
appears at most once. -/
theorem get_prices_series_contract (st : MemoryStore) (symbol timeframe : String)
    (n : Option ℕ) :
    st.get_prices symbol timeframe n =
      (st.get_bars symbol timeframe n).map (fun bar => (bar.timestamp, bar.close)) ∧
    ((dedupKeepLast (st.get_prices symbol timeframe n)).map Prod.fst).Nodup :=
  ⟨rfl, dedupKeepLast_fst_nodup _⟩

/-! ### C3: memory-store tick retention -/

theorem takeLast_of_length_le {α : Type} (n : ℕ) (l : List α) (h : l.length ≤ n) :
    takeLast n l = l := by
  simp only [takeLast]
  rw [List.take_of_length_le (by simpa using h), List.reverse_reverse]

/-- Re-truncating an already truncated deque while appending any suffix is
the same as truncating the untruncated history. -/
theorem takeLast_takeLast_append_list {α : Type} (n : ℕ) (l l₂ : List α) :
    takeLast n (takeLast n l ++ l₂) = takeLast n (l ++ l₂) := by
  simp only [takeLast, List.reverse_append, List.reverse_reverse]
  rw [List.take_append_eq_append_take, List.take_append_eq_append_take, List.take_take,
    min_eq_left (Nat.sub_le n _)]

/-- A sequence of `MemoryStore.add_tick` calls. -/
def addTicks (st : MemoryStore) (ticks : List Tick) : MemoryStore :=
  ticks.foldl MemoryStore.add_tick st

theorem add_tick_max_ticks (st : MemoryStore) (t : Tick) :
    (st.add_tick t).max_ticks = st.max_ticks := rfl

theorem addTicks_lookup (ticks : List Tick) :
    ∀ (st : MemoryStore) (s : String) (d : SymbolData),
      (∀ t ∈ ticks, t.symbol = s) →
      dictGet st.data (pyUpper s) = some d →
      d.ticks_maxlen = st.max_ticks →
      d.ticks.length ≤ st.max_ticks →
      ∃ d', dictGet (addTicks st ticks).data (pyUpper s) = some d' ∧
        d'.ticks = takeLast st.max_ticks (d.ticks ++ ticks) := by
  induction ticks with
  | nil =>
    intro st s d _ hd _ hlen
    refine ⟨d, hd, ?_⟩
    rw [List.append_nil]
    exact (takeLast_of_length_le _ _ hlen).symm
  | cons t rest ih =>
    intro st s d hall hd hmax hlen
    have hts : t.symbol = s := hall t (List.mem_cons_self _ _)
    have hstep : addTicks st (t :: rest) = addTicks (st.add_tick t) rest := rfl
    have hd1 : dictGet (st.add_tick t).data (pyUpper s) =
        some { d with ticks := takeLast d.ticks_maxlen (d.ticks ++ [t]) } := by
      simp only [MemoryStore.add_tick, hts, hd]
      exact dictGet_dictSet_self _ _ _
    obtain ⟨d', hd', hticks⟩ := ih (st.add_tick t) s _
      (fun u hu => hall u (List.mem_cons_of_mem _ hu)) hd1
      (by simpa [add_tick_max_ticks] using hmax)
      (by simp [add_tick_max_ticks, takeLast_length, hmax])
    refine ⟨d', by rw [hstep]; exact hd', ?_⟩
    rw [hticks]
    simp only [add_tick_max_ticks, hmax]
    rw [takeLast_takeLast_append_list, List.append_assoc, List.singleton_append]

theorem addTicks_other (ticks : List Tick) :
    ∀ (st : MemoryStore) (s' : String),
      (∀ t ∈ ticks, pyUpper t.symbol ≠ pyUpper s') →
      dictGet st.data (pyUpper s') = none →
      dictGet (addTicks st ticks).data (pyUpper s') = none := by
  induction ticks with
  | nil => intro st s' _ h; exact h
  | cons t rest ih =>
    intro st s' hall h
    have hstep : addTicks st (t :: rest) = addTicks (st.add_tick t) rest := rfl
    rw [hstep]
    refine ih _ s' (fun u hu => hall u (List.mem_cons_of_mem _ hu)) ?_
    have hne : pyUpper s' ≠ pyUpper t.symbol := (hall t (List.mem_cons_self _ _)).symm
    simp only [MemoryStore.add_tick]
    rcases hlook : dictGet st.data (pyUpper t.symbol) with _ | d <;>
      simp only [hlook] <;> rw [dictGet_dictSet_ne _ _ _ _ hne] <;> exact h

/-- C3: starting from an empty store with capacity `max_ticks`, after the
ticks of symbol `s` are added, `get_ticks s` returns exactly the last
`min N max_ticks` of them in insertion order, and `get_ticks` of a symbol
never added returns the empty list. -/
theorem memorystore_get_ticks_contract (max_ticks max_bars : ℕ) (s : String)
    (ticks : List Tick) (hall : ∀ t ∈ ticks, t.symbol = s) :
    (addTicks (mkMemoryStore max_ticks max_bars) ticks).get_ticks s none =
      takeLast (min ticks.length max_ticks) ticks ∧
    ∀ s' : String, (∀ t ∈ ticks, pyUpper t.symbol ≠ pyUpper s') →
      (addTicks (mkMemoryStore max_ticks max_bars) ticks).get_ticks s' none = [] := by
  constructor
  · rw [takeLast_min]
    cases ticks with
    | nil => simp [addTicks, MemoryStore.get_ticks, mkMemoryStore, dictGet, takeLast_nil]
    | cons t rest =>
      have hts : t.symbol = s := hall t (List.mem_cons_self _ _)
      have hstep : addTicks (mkMemoryStore max_ticks max_bars) (t :: rest) =
          addTicks ((mkMemoryStore max_ticks max_bars).add_tick t) rest := rfl
      have hd1 : dictGet ((mkMemoryStore max_ticks max_bars).add_tick t).data (pyUpper s) =
          some { symbol := pyUpper s, ticks := takeLast max_ticks [t],
                 ticks_maxlen := max_ticks } := by
        simp only [MemoryStore.add_tick, hts, mkMemoryStore]
        exact dictGet_dictSet_self _ _ _
      obtain ⟨d', hd', hticks⟩ := addTicks_lookup rest
        ((mkMemoryStore max_ticks max_bars).add_tick t) s _
        (fun u hu => hall u (List.mem_cons_of_mem _ hu)) hd1 rfl
        (by rw [add_tick_max_ticks, takeLast_length]; exact min_le_left _ _)
      rw [hstep]
      show MemoryStore.get_ticks _ s none = _
      simp only [MemoryStore.get_ticks, hd']
      rw [show pySliceLast d'.ticks none = d'.ticks from rfl, hticks]
      rw [show ((mkMemoryStore max_ticks max_bars).add_tick t).max_ticks = max_ticks from rfl]
      rw [takeLast_takeLast_append_list]
      rfl
  · intro s' hall'
    have h := addTicks_other ticks (mkMemoryStore max_ticks max_bars) s' hall' rfl
    show MemoryStore.get_ticks _ s' none = _
    simp [MemoryStore.get_ticks, h]

/-- A "BTC" tick at a given time, for concrete runs. -/
def tickAt (ts : ℚ) : Tick :=
  { symbol := "BTC", timestamp := ts, price := 1, quantity := 0 }

/-- C3 witness: capacity 2, three BTC ticks — the last two are kept, and an
unknown symbol returns the empty list. -/
theorem memorystore_get_ticks_contract_witness :
    (addTicks (mkMemoryStore 2 10000) [tickAt 0, tickAt 1, tickAt 2]).get_ticks "BTC" none =
      takeLast (min 3 2) [tickAt 0, tickAt 1, tickAt 2] ∧
    (addTicks (mkMemoryStore 2 10000) [tickAt 0, tickAt 1, tickAt 2]).get_ticks "ETH" none =
      [] := by
  have h := memorystore_get_ticks_contract 2 10000 "BTC" [tickAt 0, tickAt 1, tickAt 2]
    (by decide)
  exact ⟨by simpa using h.1, h.2 "ETH" (by decide)⟩

/-! ### C10: `check_zscore` only evaluates z-score rules -/

theorem check_rule_step_skip (z : ℚ) (symbol : Option String) (timestamp : ℚ)
    (acc : AlertEngineState × List Alert) (rule : AlertRule)
    (h : rule.alert_type ≠ AlertType.zscore_high ∧ rule.alert_type ≠ AlertType.zscore_low) :
    check_rule_step z symbol timestamp acc rule = acc := by
  obtain ⟨st, triggered⟩ := acc
  simp only [check_rule_step]
  rw [if_neg (not_or.mpr h)]

theorem check_zscore_append_skip (rules : List AlertRule) (rule : AlertRule)
    (st : AlertEngineState) (z : ℚ) (symbol : Option String) (timestamp : ℚ)
    (h : rule.alert_type ≠ AlertType.zscore_high ∧ rule.alert_type ≠ AlertType.zscore_low) :
    check_zscore (rules ++ [rule]) st z symbol timestamp =
      check_zscore rules st z symbol timestamp := by
  unfold check_zscore
  rw [List.foldl_append, List.foldl_cons, List.foldl_nil,
    check_rule_step_skip _ _ _ _ _ h]

/-- C10: adding a rule whose `alert_type` is not `ZSCORE_HIGH`/`ZSCORE_LOW`
changes nothing about any sequence of `check_zscore` calls — final state
and every triggered alert are identical, whatever the rule's predicate. -/
theorem check_zscore_ignores_non_zscore_rules (rules : List AlertRule) (rule : AlertRule)
    (st : AlertEngineState) (calls : List ZCall)
    (h : rule.alert_type ≠ AlertType.zscore_high ∧ rule.alert_type ≠ AlertType.zscore_low) :
    run_checks (add_rule rules rule) st calls = run_checks rules st calls := by
  unfold run_checks add_rule
  suffices haux : ∀ (calls : List ZCall) (acc : AlertEngineState × List Alert),
      calls.foldl (runStep (rules ++ [rule])) acc = calls.foldl (runStep rules) acc from
    haux calls (st, [])
  intro calls
  induction calls with
  | nil => intro acc; rfl
  | cons c cs ih =>
    intro acc
    rw [List.foldl_cons, List.foldl_cons, ih]
    congr 1
    unfold runStep
    rw [check_zscore_append_skip _ _ _ _ _ _ h]

/-- A rule of a non-z-score type whose predicate always holds. -/
def spikeRule : AlertRule :=
  { name := "spike", alert_type := AlertType.price_spike,
    condition := fun _ => true, severity := AlertSeverity.critical, cooldown_seconds := 0 }

/-- C10 witness: adding the always-true `PRICE_SPIKE` rule to the default
rules changes nothing about a concrete `check_zscore` call. -/
theorem check_zscore_ignores_non_zscore_rules_witness :
    run_checks (add_rule DEFAULT_RULES spikeRule) {} [{ z := 5/2, timestamp := 0 }] =
      run_checks DEFAULT_RULES {} [{ z := 5/2, timestamp := 0 }] :=
  check_zscore_ignores_non_zscore_rules DEFAULT_RULES spikeRule {}
    [{ z := 5/2, timestamp := 0 }] (by decide)

/-! ### C1: out-of-order ticks in the resampler -/

theorem resampler_out_of_order_step (rs : TimeSeriesResampler) (tick : Tick)
    (bu : BarBuilder) (ct : ℚ)
    (hb : dictGet rs.builders tick.symbol = some bu)
    (hc : dictGet rs.current_bar_time tick.symbol = some ct)
    (hlt : get_bar_timestamp rs.interval_seconds tick.timestamp < ct) :
    rs.add_tick tick =
      ({ rs with builders := dictSet rs.builders tick.symbol (bu.add_tick tick) }, none) := by
  simp only [TimeSeriesResampler.add_tick]
  rw [hb]
  simp only [reduceCtorEq, if_false]
  rw [hc]
  simp only [Option.getD_some]
  rw [if_neg (lt_asymm hlt)]
  rw [hb]
  simp only [Option.getD_some]

/-- C1 (amended): when a tick's aligned bar time is strictly earlier than
`current_bar_time[s]`, `add_tick` emits no bar and leaves
`current_bar_time` and the completed bars unchanged, but it does not drop
the tick: the tick is incorporated into the current builder via
`BarBuilder.add_tick`. -/
theorem add_tick_out_of_order (rs : TimeSeriesResampler) (tick : Tick)
    (bu : BarBuilder) (ct : ℚ)
    (hb : dictGet rs.builders tick.symbol = some bu)
    (hc : dictGet rs.current_bar_time tick.symbol = some ct)
    (hlt : get_bar_timestamp rs.interval_seconds tick.timestamp < ct) :
    rs.add_tick tick =
      ({ rs with builders := dictSet rs.builders tick.symbol (bu.add_tick tick) }, none) :=
  resampler_out_of_order_step rs tick bu ct hb hc hlt

/-- The builder state after one "BTC" tick at `t = 70` (price 101,
quantity 2) on a fresh 1-minute resampler; `current_bar_time` is 60. -/
def oooBuilder : BarBuilder :=
  { symbol := "BTC", bar_start := some 70, open_ := 101, high := 101, low := 101,
    close := 101, volume := 2, vwap_numerator := 202, trade_count := 1 }

/-- A 1-minute resampler mid-bar at `current_bar_time = 60`. -/
def oooPre : TimeSeriesResampler :=
  { timeframe := "1T", interval_seconds := 60,
    builders := [("BTC", oooBuilder)],
    current_bar_time := [("BTC", 60)], completed_bars := [] }

/-- An out-of-order tick: its aligned bar time is 0 < 60. -/
def oooTick : Tick := { symbol := "BTC", timestamp := 30, price := 50, quantity := 1 }

/-- C1 counterexample: the out-of-order tick at `t = 30` (aligned bar 0,
strictly before `current_bar_time = 60`) is not dropped — `add_tick` emits
no bar and keeps `current_bar_time`, but the builder absorbs the tick (its
`trade_count` rises from 1 to 2 and its `low` drops to 50). -/
theorem out_of_order_tick_not_dropped_cex :
    get_bar_timestamp oooPre.interval_seconds oooTick.timestamp < 60 ∧
    dictGet oooPre.current_bar_time "BTC" = some 60 ∧
    (oooPre.add_tick oooTick).2 = none ∧
    dictGet (oooPre.add_tick oooTick).1.current_bar_time "BTC" = some 60 ∧
    dictGet (oooPre.add_tick oooTick).1.builders "BTC" = some (oooBuilder.add_tick oooTick) ∧
    (oooBuilder.add_tick oooTick).trade_count = 2 ∧ oooBuilder.trade_count = 1 ∧
    (oooBuilder.add_tick oooTick).low = 50 ∧ oooBuilder.low = 101 := by
  have hbt : get_bar_timestamp oooPre.interval_seconds oooTick.timestamp = 0 := by
    norm_num [get_bar_timestamp, oooPre, oooTick]
  have hstep : oooPre.add_tick oooTick =
      ({ oooPre with
          builders := dictSet oooPre.builders oooTick.symbol (oooBuilder.add_tick oooTick) },
        none) :=
    resampler_out_of_order_step oooPre oooTick oooBuilder 60 (by decide) (by decide)
      (by rw [hbt]; norm_num)
  refine ⟨by rw [hbt]; norm_num, by decide, ?_, ?_, ?_, ?_, ?_, ?_, ?_⟩
  · rw [hstep]
  · rw [hstep]
    decide
  · rw [hstep]
    exact dictGet_dictSet_self _ _ _
  · simp [BarBuilder.add_tick, oooBuilder, oooTick]
  · decide
  · simp [BarBuilder.add_tick, oooBuilder, oooTick]
    norm_num
  · decide

/-- C1 witness: the amended theorem applied to the concrete mid-bar state
and the out-of-order tick. -/
theorem add_tick_out_of_order_witness :
    oooPre.add_tick oooTick =
      ({ oooPre with
          builders := dictSet oooPre.builders oooTick.symbol (oooBuilder.add_tick oooTick) },
        none) :=
  add_tick_out_of_order oooPre oooTick oooBuilder 60 (by decide) (by decide)
    (by norm_num [get_bar_timestamp, oooPre, oooTick])

/-! ### C8: rolling z-score nullness -/

theorem rollingMean_getElem (s : List ℚ) (w m i : ℕ) (hi : i < s.length) :
    (rollingMean s w m)[i]? =
      some (if (rollingWindow s w i).length < m then none
            else some (qMean (rollingWindow s w i))) := by
  simp [rollingMean, List.getElem?_range hi]

theorem rollingStd_getElem (sq : ℚ → ℚ) (s : List ℚ) (w m i : ℕ) (hi : i < s.length) :
    (rollingStd sq s w m)[i]? =
      some (if (rollingWindow s w i).length < m ∨ (rollingWindow s w i).length < 2 then none
            else some (sq (sampleVar (rollingWindow s w i)))) := by
  simp [rollingStd, List.getElem?_range hi]

theorem rollingMean_length (s : List ℚ) (w m : ℕ) : (rollingMean s w m).length = s.length := by
  simp [rollingMean]

theorem rollingStd_length (sq : ℚ → ℚ) (s : List ℚ) (w m : ℕ) :
    (rollingStd sq s w m).length = s.length := by
  simp [rollingStd]

theorem replaceZeroWithNan_length (l : List (Option ℚ)) :
    (replaceZeroWithNan l).length = l.length := by
  simp [replaceZeroWithNan]

theorem replaceZeroWithNan_getElem (l : List (Option ℚ)) (i : ℕ) :
    (replaceZeroWithNan l)[i]? =
      (l[i]?).map (fun o =>
        match o with
        | some v => if v = 0 then none else some v
        | none => none) := by
  simp [replaceZeroWithNan]

theorem calculate_zscore_length (sq : ℚ → ℚ) (s : List ℚ) (w : ℕ) (hs : 2 ≤ s.length) :
    (calculate_zscore sq s w none).length = s.length := by
  rw [calculate_zscore, if_neg (by omega)]
  simp [seriesDiv, seriesSub, rollingMean_length, rollingStd_length, replaceZeroWithNan_length]

/-- Pointwise closed form of the rolling z-score at a valid index. -/
theorem calculate_zscore_getElem (sq : ℚ → ℚ) (s : List ℚ) (w : ℕ) (hs : 2 ≤ s.length)
    (i : ℕ) (hi : i < s.length) :
    (calculate_zscore sq s w none)[i]? =
      some (if (rollingWindow s w i).length < max 2 (w / 2) ∨
              (rollingWindow s w i).length < 2 then none
            else if sq (sampleVar (rollingWindow s w i)) = 0 then none
            else some ((s.getD i 0 - qMean (rollingWindow s w i)) /
              sq (sampleVar (rollingWindow s w i)))) := by
  rw [calculate_zscore, if_neg (by omega)]
  simp only [Option.getD_none]
  rw [seriesDiv, List.getElem?_zipWith, seriesSub, List.getElem?_zipWith,
    List.getElem?_eq_getElem hi, rollingMean_getElem s w _ i hi,
    replaceZeroWithNan_getElem, rollingStd_getElem sq s w _ i hi,
    List.getD_eq_getElem s 0 hi]
  by_cases hm : (rollingWindow s w i).length < max 2 (w / 2)
  · rw [if_pos hm, if_pos (Or.inl hm), if_pos (Or.inl hm)]
    rfl
  · rw [if_neg hm]
    by_cases h2 : (rollingWindow s w i).length < 2
    · rw [if_pos (Or.inr h2), if_pos (Or.inr h2)]
      rfl
    · rw [if_neg (by tauto), if_neg (by tauto)]
      by_cases hz : sq (sampleVar (rollingWindow s w i)) = 0
      · simp [hz]
      · simp [hz]

theorem mem_rollingWindow {s : List ℚ} {w i : ℕ} {x : ℚ} (h : x ∈ rollingWindow s w i) :
    x ∈ s := by
  have h1 : x ∈ (s.take (i + 1)).reverse.take w := by
    simpa [rollingWindow, takeLast] using h
  exact List.take_subset _ _ (List.mem_reverse.mp (List.take_subset _ _ h1))

theorem rollingWindow_length (s : List ℚ) (w i : ℕ) (hi : i < s.length) :
    (rollingWindow s w i).length = min w (i + 1) := by
  simp only [rollingWindow, takeLast_length, List.length_take]
  omega

theorem sampleVar_const (win : List ℚ) (q : ℚ) (hwin : ∀ x ∈ win, x = q)
    (h : win ≠ []) : sampleVar win = 0 := by
  have hlen : (win.length : ℚ) ≠ 0 := by
    have := List.length_pos.mpr h
    positivity
  have hmean : qMean win = q := by
    rw [qMean, List.sum_eq_card_nsmul win q hwin]
    field_simp
  rw [sampleVar, hmean]
  have hz : (win.map (fun x => (x - q) ^ 2)).sum = 0 := by
    apply List.sum_eq_zero
    intro y hy
    obtain ⟨x, hx, rfl⟩ := List.mem_map.mp hy
    rw [hwin x hx]
    ring
  rw [hz, zero_div]

/-- C8: the rolling z-score (i) has one entry per input point, (ii) is null
wherever fewer than `max(2, w/2)` observations are in the window, (iii) is
null wherever the rolling standard deviation is zero (in particular on a
constant series it is null everywhere), and (iv) elsewhere equals
`(s_i − mean) / std`. -/
theorem zscore_null_contract (sq : ℚ → ℚ) (s : List ℚ) (w : ℕ)
    (hs : 2 ≤ s.length) (hw : 2 ≤ w) (hsq : sq 0 = 0) :
    (calculate_zscore sq s w none).length = s.length ∧
    (∀ i, i < s.length →
      ((rollingWindow s w i).length < max 2 (w / 2) →
        (calculate_zscore sq s w none)[i]? = some none) ∧
      (sq (sampleVar (rollingWindow s w i)) = 0 →
        (calculate_zscore sq s w none)[i]? = some none) ∧
      (max 2 (w / 2) ≤ (rollingWindow s w i).length →
        sq (sampleVar (rollingWindow s w i)) ≠ 0 →
        (calculate_zscore sq s w none)[i]? =
          some (some ((s.getD i 0 - qMean (rollingWindow s w i)) /
            sq (sampleVar (rollingWindow s w i)))))) ∧
    (∀ q : ℚ, (∀ x ∈ s, x = q) → ∀ i, i < s.length →
      (calculate_zscore sq s w none)[i]? = some none) := by
  refine ⟨calculate_zscore_length sq s w hs, fun i hi => ⟨?_, ?_, ?_⟩, ?_⟩
  · intro hm
    rw [calculate_zscore_getElem sq s w hs i hi, if_pos (Or.inl hm)]
  · intro hz
    rw [calculate_zscore_getElem sq s w hs i hi]
    by_cases hm : (rollingWindow s w i).length < max 2 (w / 2) ∨
        (rollingWindow s w i).length < 2
    · rw [if_pos hm]
    · rw [if_neg hm, if_pos hz]
  · intro hm hz
    rw [calculate_zscore_getElem sq s w hs i hi,
      if_neg (by push_neg; exact ⟨hm, le_trans (le_max_left _ _) hm⟩), if_neg hz]
  · intro q hq i hi
    have hwin : ∀ x ∈ rollingWindow s w i, x = q := fun x hx => hq x (mem_rollingWindow hx)
    have hne : rollingWindow s w i ≠ [] := by
      have := rollingWindow_length s w i hi
      intro he
      rw [he] at this
      simp at this
      omega
    have hvar : sampleVar (rollingWindow s w i) = 0 := sampleVar_const _ q hwin hne
    rw [calculate_zscore_getElem sq s w hs i hi]
    by_cases hm : (rollingWindow s w i).length < max 2 (w / 2) ∨
        (rollingWindow s w i).length < 2
    · rw [if_pos hm]
    · rw [if_neg hm, if_pos (by rw [hvar, hsq])]

/-- C8 witness: a constant series of three 5s with window 20 yields a
z-score series of three nulls. -/
theorem zscore_null_contract_witness :
    (calculate_zscore id [5, 5, 5] 20 none).length = 3 ∧
    (calculate_zscore id [5, 5, 5] 20 none)[0]? = some none ∧
    (calculate_zscore id [5, 5, 5] 20 none)[2]? = some none := by
  have h := zscore_null_contract id [5, 5, 5] 20 (by norm_num) (by norm_num) rfl
  exact ⟨by simpa using h.1, h.2.2 5 (by decide) 0 (by norm_num),
    h.2.2 5 (by decide) 2 (by norm_num)⟩

/-! ### C4: alert cooldown spacing

`_last_triggered[K]` is, by construction, the timestamp of the most recent
alert emitted under cooldown key `K` (the two are updated in the same
statement of the source), so consecutive alerts under `K` correspond to
successive values of that entry. -/

/-- The cooldown key the source computes (`f"{rule.name}_{symbol or 'all'}"`). -/
def ruleKey (rule : AlertRule) (symbol : Option String) : String :=
  rule.name ++ "_" ++ symbol.getD "all"

theorem check_rule_step_cases (z : ℚ) (symbol : Option String) (timestamp : ℚ)
    (acc : AlertEngineState × List Alert) (rule : AlertRule) :
    check_rule_step z symbol timestamp acc rule = acc ∨
    (rule.condition z = true ∧
      (check_rule_step z symbol timestamp acc rule).1.last_triggered =
        dictSet acc.1.last_triggered (ruleKey rule symbol) timestamp ∧
      ∀ t1, dictGet acc.1.last_triggered (ruleKey rule symbol) = some t1 →
        (rule.cooldown_seconds : ℚ) ≤ timestamp - t1) := by
  obtain ⟨st, triggered⟩ := acc
  simp only [check_rule_step, ruleKey]
  by_cases htype : rule.alert_type = AlertType.zscore_high ∨
      rule.alert_type = AlertType.zscore_low
  · rw [if_pos htype]
    by_cases hcond : rule.condition z
    · rw [if_pos hcond]
      rcases hlook : dictGet st.last_triggered (rule.name ++ "_" ++ symbol.getD "all")
        with _ | last_time
      · simp only [hlook]
        exact Or.inr ⟨hcond, rfl, fun t1 ht1 => by simp [hlook] at ht1⟩
      · simp only [hlook]
        by_cases hcd : timestamp - last_time < (rule.cooldown_seconds : ℚ)
        · exact Or.inl (by simp [hcd])
        · refine Or.inr ⟨hcond, by simp [hcd], fun t1 ht1 => ?_⟩
          obtain rfl := Option.some.inj ht1
          exact le_of_not_lt hcd
    · rw [if_neg hcond]
      exact Or.inl rfl
  · rw [if_neg htype]
    exact Or.inl rfl

theorem check_zscore_lastTriggered_step (z : ℚ) (symbol : Option String) (timestamp : ℚ) :
    ∀ (rules : List AlertRule) (acc : AlertEngineState × List Alert) (K : String) (t1 t2 : ℚ),
      dictGet acc.1.last_triggered K = some t1 →
      dictGet (rules.foldl (check_rule_step z symbol timestamp) acc).1.last_triggered K =
        some t2 →
      t2 = t1 ∨
        (t2 = timestamp ∧ ∃ rule ∈ rules, ruleKey rule symbol = K ∧
          rule.condition z = true ∧ (rule.cooldown_seconds : ℚ) ≤ timestamp - t1) := by
  intro rules
  induction rules with
  | nil =>
    intro acc K t1 t2 h1 h2
    rw [List.foldl_nil] at h2
    rw [h1] at h2
    exact Or.inl (Option.some.inj h2).symm
  | cons r rest ih =>
    intro acc K t1 t2 h1 h2
    rw [List.foldl_cons] at h2
    rcases check_rule_step_cases z symbol timestamp acc r with hid | ⟨hcond, hset, hcd⟩
    · rw [hid] at h2
      rcases ih acc K t1 t2 h1 h2 with h | ⟨hts, rule, hmem, hkey, hc, hsp⟩
      · exact Or.inl h
      · exact Or.inr ⟨hts, rule, List.mem_cons_of_mem _ hmem, hkey, hc, hsp⟩
    · by_cases hK : K = ruleKey r symbol
      · subst hK
        have hmid : dictGet (check_rule_step z symbol timestamp acc r).1.last_triggered
            (ruleKey r symbol) = some timestamp := by
          rw [hset]
          exact dictGet_dictSet_self _ _ _
        have hsp := hcd t1 h1
        rcases ih _ _ timestamp t2 hmid h2 with h | ⟨hts, _, _, _, _, _⟩
        · exact Or.inr ⟨h, r, List.mem_cons_self _ _, rfl, hcond, hsp⟩
        · exact Or.inr ⟨hts, r, List.mem_cons_self _ _, rfl, hcond, hsp⟩
      · have hmid : dictGet (check_rule_step z symbol timestamp acc r).1.last_triggered K =
            some t1 := by
          rw [hset, dictGet_dictSet_ne _ _ _ _ hK]
          exact h1
        rcases ih _ _ t1 t2 hmid h2 with h | ⟨hts, rule, hmem, hkey, hc, hsp⟩
        · exact Or.inl h
        · exact Or.inr ⟨hts, rule, List.mem_cons_of_mem _ hmem, hkey, hc, hsp⟩

theorem stateAfter_append_singleton (rules : List AlertRule) (st : AlertEngineState)
    (calls : List ZCall) (c : ZCall) :
    stateAfter rules st (calls ++ [c]) =
      (check_zscore rules (stateAfter rules st calls) c.z c.symbol c.timestamp).1 := by
  simp only [stateAfter, run_checks, List.foldl_append, List.foldl_cons, List.foldl_nil]
  rfl

/-- C4: (spacing) along any sequence of `check_zscore` calls, whenever the
`_last_triggered` entry of a cooldown key `K` — the timestamp of the most
recent alert emitted under `K` — changes from `t1` to `t2` at call `i`,
the new alert's timestamp is that call's, some rule matching `K` fired with
its predicate true, and `t2 - t1 ≥` that rule's `cooldown_seconds`;
(multiplicity) a single z value can fire several rules in one call, e.g.
`z = 4` fires both `z>2` (WARNING) and `z>3` (CRITICAL) default rules,
each under its own key. -/
theorem alert_cooldown_contract :
    (∀ (rules : List AlertRule) (st0 : AlertEngineState) (calls : List ZCall)
       (i : ℕ) (K : String) (t1 t2 : ℚ),
      i < calls.length →
      dictGet (stateAfter rules st0 (calls.take i)).last_triggered K = some t1 →
      dictGet (stateAfter rules st0 (calls.take (i + 1))).last_triggered K = some t2 →
      t2 ≠ t1 →
      t2 = (calls.getD i { z := 0, timestamp := 0 }).timestamp ∧
        ∃ rule ∈ rules, ruleKey rule (calls.getD i { z := 0, timestamp := 0 }).symbol = K ∧
          rule.condition (calls.getD i { z := 0, timestamp := 0 }).z = true ∧
          (rule.cooldown_seconds : ℚ) ≤ t2 - t1) ∧
    (check_zscore DEFAULT_RULES {} 4 none 0).2.map
        (fun a => (a.alert_type, a.severity)) =
      [(AlertType.zscore_high, AlertSeverity.warning),
       (AlertType.zscore_high, AlertSeverity.critical)] ∧
    dictGet (check_zscore DEFAULT_RULES {} 4 none 0).1.last_triggered "zscore_high_all" =
      some 0 ∧
    dictGet (check_zscore DEFAULT_RULES {} 4 none 0).1.last_triggered
      "zscore_critical_high_all" = some 0 := by
  refine ⟨?_, by decide, by decide, by decide⟩
  intro rules st0 calls i K t1 t2 hi h1 h2 hne
  have htake : calls.take (i + 1) = calls.take i ++ [calls.getD i { z := 0, timestamp := 0 }] := by
    rw [List.getD_eq_getElem calls _ hi]
    rw [List.take_succ, List.getElem?_eq_getElem hi]
    rfl
  rw [htake, stateAfter_append_singleton] at h2
  rcases check_zscore_lastTriggered_step
      (calls.getD i { z := 0, timestamp := 0 }).z
      (calls.getD i { z := 0, timestamp := 0 }).symbol
      (calls.getD i { z := 0, timestamp := 0 }).timestamp rules
      (stateAfter rules st0 (calls.take i), []) K t1 t2 h1 h2 with h | ⟨hts, hrest⟩
  · exact absurd h hne
  · exact ⟨hts, by rwa [hts]⟩

/-- Two `check_zscore` calls with `z = 4`, 100 s apart. -/
def zc1 : ZCall := { z := 4, timestamp := 0 }

def zc2 : ZCall := { z := 4, timestamp := 100 }

def zCalls2 : List ZCall := [zc1, zc2]

/-- The engine state after the first `z = 4` call on the default rules. -/
def alertState1 : AlertEngineState :=
  { history := [{ timestamp := 0, alert_type := .zscore_high, severity := .warning,
                  value := 4, symbol := none },
                { timestamp := 0, alert_type := .zscore_high, severity := .critical,
                  value := 4, symbol := none }],
    last_triggered := [("zscore_high_all", 0), ("zscore_critical_high_all", 0)],
    max_history := 100 }

/-- C4 witness: on the default rules, `z = 4` alerts at `t = 0` and
`t = 100` under the key `zscore_high_all` — the spacing theorem applied to
that run identifies the firing rule and yields `100 - 0 ≥ 60`. -/
theorem alert_cooldown_contract_witness :
    (100 : ℚ) = (zCalls2.getD 1 { z := 0, timestamp := 0 }).timestamp ∧
    ∃ rule ∈ DEFAULT_RULES,
      ruleKey rule (zCalls2.getD 1 { z := 0, timestamp := 0 }).symbol = "zscore_high_all" ∧
      rule.condition (zCalls2.getD 1 { z := 0, timestamp := 0 }).z = true ∧
      (rule.cooldown_seconds : ℚ) ≤ 100 - 0 := by
  have e1 : "zscore_high" ++ "_" ++ "all" = "zscore_high_all" := rfl
  have e2 : "zscore_low" ++ "_" ++ "all" = "zscore_low_all" := rfl
  have e3 : "zscore_critical_high" ++ "_" ++ "all" = "zscore_critical_high_all" := rfl
  have e4 : "zscore_critical_low" ++ "_" ++ "all" = "zscore_critical_low_all" := rfl
  have b1 : ("zscore_high_all" == "zscore_critical_high_all") = false := by decide
  have b2 : ("zscore_critical_high_all" == "zscore_high_all") = false := by decide
  have b3 : ("zscore_high_all" == "zscore_high_all") = true := by decide
  have b4 : ("zscore_critical_high_all" == "zscore_critical_high_all") = true := by decide
  have h1 : dictGet (stateAfter DEFAULT_RULES {} (zCalls2.take 1)).last_triggered
      "zscore_high_all" = some 0 := by decide
  have h2 : dictGet (stateAfter DEFAULT_RULES {} (zCalls2.take 2)).last_triggered
      "zscore_high_all" = some 100 := by
    have hS1 : stateAfter DEFAULT_RULES {} [zc1] = alertState1 := by decide
    have htake : zCalls2.take 2 = [zc1] ++ [zc2] := rfl
    rw [htake, stateAfter_append_singleton, hS1]
    norm_num [check_zscore, check_rule_step, DEFAULT_RULES, alertState1, zc2, dictGet,
      dictSet, takeLast, List.find?, e1, e2, e3, e4, b1, b2, b3, b4]
  exact alert_cooldown_contract.1 DEFAULT_RULES {} zCalls2 1 "zscore_high_all" 0 100
    (by norm_num [zCalls2]) h1 h2 (by norm_num)

/-! ### C2: invariants of emitted bars -/

/-- The claimed invariant of an emitted bar for timeframe width `Δ`:
epoch-aligned start, OHLC ordering, vwap between the extrema, and at
least one trade. -/
def BarOK (Δ : ℕ) (bar : OHLCVBar) : Prop :=
  (∃ k : ℤ, bar.timestamp = (k : ℚ) * (Δ : ℚ)) ∧
  bar.low ≤ bar.open_ ∧ bar.open_ ≤ bar.high ∧
  bar.low ≤ bar.close ∧ bar.close ≤ bar.high ∧
  bar.low ≤ bar.vwap ∧ bar.vwap ≤ bar.high ∧
  1 ≤ bar.trade_count

/-- Invariant of a reachable `BarBuilder` (under non-negative tick
quantities): an empty builder carries zero totals, a started builder keeps
its extrema around open/close and bounds the vwap numerator by
`low·volume ≤ Σ price·qty ≤ high·volume`. -/
def BuilderInv (b : BarBuilder) : Prop :=
  (b.bar_start = none → b.trade_count = 0 ∧ b.volume = 0 ∧ b.vwap_numerator = 0) ∧
  (b.bar_start ≠ none → 1 ≤ b.trade_count ∧ 0 ≤ b.volume ∧
    b.low ≤ b.open_ ∧ b.open_ ≤ b.high ∧ b.low ≤ b.close ∧ b.close ≤ b.high ∧
    b.low * b.volume ≤ b.vwap_numerator ∧ b.vwap_numerator ≤ b.high * b.volume)

theorem builderInv_fresh (s : String) : BuilderInv { symbol := s } := by
  constructor
  · intro _
    exact ⟨rfl, rfl, rfl⟩
  · intro h
    exact absurd rfl h

theorem builderInv_reset (b : BarBuilder) : BuilderInv b.reset := by
  constructor
  · intro _
    exact ⟨rfl, rfl, rfl⟩
  · intro h
    exact absurd rfl h

theorem builderInv_add_tick (b : BarBuilder) (t : Tick) (hq : 0 ≤ t.quantity)
    (hinv : BuilderInv b) : BuilderInv (b.add_tick t) := by
  obtain ⟨hnone, hsome⟩ := hinv
  rcases hstart : b.bar_start with _ | ts0
  · obtain ⟨htc, hvol, hnum⟩ := hnone hstart
    simp only [BarBuilder.add_tick, hstart, if_true]
    constructor
    · intro h
      exact absurd h (by simp)
    · intro _
      dsimp only
      simp only [min_self, max_self]
      refine ⟨by omega, by rw [hvol]; linarith, le_refl _, le_refl _, le_refl _, le_refl _,
        ?_, ?_⟩
      · exact le_of_eq (by rw [hvol, hnum]; ring)
      · exact le_of_eq (by rw [hvol, hnum]; ring)
  · simp only [BarBuilder.add_tick, hstart]
    rw [if_neg (by simp)]
    have hne : b.bar_start ≠ none := by simp [hstart]
    obtain ⟨htc, hvol, hlo, hoh, hlc, hch, hlow, hhigh⟩ := hsome hne
    constructor
    · intro h
      dsimp only at h
      exact absurd (hstart ▸ h) (by simp)
    · intro _
      dsimp only
      have hminl : min b.low t.price ≤ b.low := min_le_left _ _
      have hminp : min b.low t.price ≤ t.price := min_le_right _ _
      have hmaxh : b.high ≤ max b.high t.price := le_max_left _ _
      have hmaxp : t.price ≤ max b.high t.price := le_max_right _ _
      refine ⟨by omega, by linarith, by linarith, by linarith, hminp, hmaxp, ?_, ?_⟩
      · have h1 : min b.low t.price * b.volume ≤ b.low * b.volume :=
          mul_le_mul_of_nonneg_right hminl hvol
        have h2 : min b.low t.price * t.quantity ≤ t.price * t.quantity :=
          mul_le_mul_of_nonneg_right hminp hq
        nlinarith
      · have h1 : b.high * b.volume ≤ max b.high t.price * b.volume :=
          mul_le_mul_of_nonneg_right hmaxh hvol
        have h2 : t.price * t.quantity ≤ max b.high t.price * t.quantity :=
          mul_le_mul_of_nonneg_right hmaxp hq
        nlinarith

theorem builder_build_ok (b : BarBuilder) (ts : ℚ) (bar : OHLCVBar)
    (hinv : BuilderInv b) (h : b.build ts = some bar) :
    bar.timestamp = ts ∧
    bar.low ≤ bar.open_ ∧ bar.open_ ≤ bar.high ∧
    bar.low ≤ bar.close ∧ bar.close ≤ bar.high ∧
    bar.low ≤ bar.vwap ∧ bar.vwap ≤ bar.high ∧
    1 ≤ bar.trade_count := by
  obtain ⟨hnone, hsome⟩ := hinv
  rw [BarBuilder.build] at h
  by_cases htc : b.trade_count = 0
  · rw [if_pos htc] at h
    exact absurd h (by simp)
  · rw [if_neg htc] at h
    have hne : b.bar_start ≠ none := by
      intro hn
      exact htc (hnone hn).1
    obtain ⟨htc1, hvol, hlo, hoh, hlc, hch, hlow, hhigh⟩ := hsome hne
    obtain rfl := Option.some.inj h
    refine ⟨rfl, hlo, hoh, hlc, hch, ?_, ?_, htc1⟩
    · by_cases hv : b.volume > 0
      · simp only [if_pos hv]
        exact (le_div_iff₀ hv).mpr hlow
      · simp only [if_neg hv]
        exact hlc
    · by_cases hv : b.volume > 0
      · simp only [if_pos hv]
        exact (div_le_iff₀ hv).mpr hhigh
      · simp only [if_neg hv]
        exact hch

theorem dictGet_dictSet_cases {α : Type} (d : List (String × α)) (k k' : String)
    (v x : α) (h : dictGet (dictSet d k v) k' = some x) :
    (k' = k ∧ x = v) ∨ (k' ≠ k ∧ dictGet d k' = some x) := by
  by_cases hk : k' = k
  · subst hk
    rw [dictGet_dictSet_self] at h
    exact Or.inl ⟨rfl, (Option.some.inj h).symm⟩
  · rw [dictGet_dictSet_ne _ _ _ _ hk] at h
    exact Or.inr ⟨hk, h⟩

/-- Invariant of a reachable resampler state for timeframe width `Δ`:
every builder satisfies `BuilderInv`, every `current_bar_time` entry is a
multiple of `Δ`, and every completed bar satisfies `BarOK Δ`. -/
def ResamplerInv (Δ : ℕ) (rs : TimeSeriesResampler) : Prop :=
  rs.interval_seconds = Δ ∧
  (∀ s b, dictGet rs.builders s = some b → BuilderInv b) ∧
  (∀ s ct, dictGet rs.current_bar_time s = some ct →
    ∃ k : ℤ, ct = (k : ℚ) * (Δ : ℚ)) ∧
  (∀ s bars, dictGet rs.completed_bars s = some bars →
    ∀ bar ∈ bars, BarOK Δ bar)

theorem resamplerInv_mk (tf : String) :
    ResamplerInv (mkResampler tf).interval_seconds (mkResampler tf) := by
  refine ⟨rfl, ?_, ?_, ?_⟩ <;> intro s x h <;> simp [mkResampler, dictGet] at h

theorem get_bar_timestamp_multiple (Δ : ℕ) (t : ℚ) :
    ∃ k : ℤ, get_bar_timestamp Δ t = (k : ℚ) * (Δ : ℚ) :=
  ⟨⌊t / (Δ : ℚ)⌋, rfl⟩

theorem builders_update_inv {B : List (String × BarBuilder)} {k : String} {v : BarBuilder}
    (hB : ∀ s b, dictGet B s = some b → BuilderInv b) (hv : BuilderInv v) :
    ∀ s b, dictGet (dictSet B k v) s = some b → BuilderInv b := by
  intro s b h
  rcases dictGet_dictSet_cases B k s v b h with ⟨_, rfl⟩ | ⟨_, h⟩
  · exact hv
  · exact hB _ _ h

theorem times_update_inv {Δ : ℕ} {C : List (String × ℚ)} {k : String} {v : ℚ}
    (hC : ∀ s ct, dictGet C s = some ct → ∃ j : ℤ, ct = (j : ℚ) * (Δ : ℚ))
    (hv : ∃ j : ℤ, v = (j : ℚ) * (Δ : ℚ)) :
    ∀ s ct, dictGet (dictSet C k v) s = some ct → ∃ j : ℤ, ct = (j : ℚ) * (Δ : ℚ) := by
  intro s ct h
  rcases dictGet_dictSet_cases C k s v ct h with ⟨_, rfl⟩ | ⟨_, h⟩
  · exact hv
  · exact hC _ _ h

theorem completed_update_inv {Δ : ℕ} {C : List (String × List OHLCVBar)} {k : String}
    {bar : OHLCVBar}
    (hC : ∀ s bars, dictGet C s = some bars → ∀ b ∈ bars, BarOK Δ b)
    (hbar : BarOK Δ bar) :
    ∀ s bars, dictGet (dictSet C k ((dictGet C k).getD [] ++ [bar])) s = some bars →
      ∀ b ∈ bars, BarOK Δ b := by
  intro s bars h b hbmem
  rcases dictGet_dictSet_cases C k s _ bars h with ⟨_, rfl⟩ | ⟨_, h⟩
  · rcases List.mem_append.mp hbmem with hold | hnew
    · rcases ho : dictGet C k with _ | l
      · rw [ho] at hold
        simp at hold
      · rw [ho] at hold
        exact hC _ _ ho b (by simpa using hold)
    · obtain rfl := List.mem_singleton.mp hnew
      exact hbar
  · exact hC _ _ h b hbmem

/-- One `add_tick` preserves `ResamplerInv` and only emits `BarOK` bars. -/
theorem add_tick_preserves (Δ : ℕ) (rs : TimeSeriesResampler) (tick : Tick)
    (hq : 0 ≤ tick.quantity) (hinv : ResamplerInv Δ rs) :
    ResamplerInv Δ (rs.add_tick tick).1 ∧
    (∀ bar, (rs.add_tick tick).2 = some bar → BarOK Δ bar) := by
  obtain ⟨hΔ, hb, hct, hcb⟩ := hinv
  subst hΔ
  have hbt := get_bar_timestamp_multiple rs.interval_seconds tick.timestamp
  have hfresh : BuilderInv { symbol := tick.symbol } := builderInv_fresh _
  have hbuInv : BuilderInv ((dictGet rs.builders tick.symbol).getD { symbol := tick.symbol }) := by
    rcases hl : dictGet rs.builders tick.symbol with _ | bu
    · exact hfresh
    · exact hb _ _ hl
  have hcur : ∃ k : ℤ,
      (dictGet rs.current_bar_time tick.symbol).getD
        (get_bar_timestamp rs.interval_seconds tick.timestamp) =
      (k : ℚ) * (rs.interval_seconds : ℚ) := by
    rcases hl : dictGet rs.current_bar_time tick.symbol with _ | ct
    · simpa using hbt
    · simpa using hct _ _ hl
  simp only [TimeSeriesResampler.add_tick]
  by_cases h1 : dictGet rs.builders tick.symbol = none
  · rw [if_pos h1]
    dsimp only
    rw [dictGet_dictSet_self]
    simp only [Option.getD_some]
    rw [if_neg (lt_irrefl _)]
    rw [dictGet_dictSet_self]
    simp only [Option.getD_some]
    refine ⟨⟨rfl, ?_, ?_, hcb⟩, ?_⟩
    · exact builders_update_inv (builders_update_inv hb hfresh)
        (builderInv_add_tick _ _ hq hfresh)
    · exact times_update_inv hct hbt
    · intro bar hbar
      simp at hbar
  · rw [if_neg h1]
    by_cases h2 : get_bar_timestamp rs.interval_seconds tick.timestamp >
        (dictGet rs.current_bar_time tick.symbol).getD
          (get_bar_timestamp rs.interval_seconds tick.timestamp)
    · rw [if_pos h2]
      rcases hbuild : ((dictGet rs.builders tick.symbol).getD { symbol := tick.symbol }).build
          ((dictGet rs.current_bar_time tick.symbol).getD
            (get_bar_timestamp rs.interval_seconds tick.timestamp)) with _ | bar
      · dsimp only
        rw [dictGet_dictSet_self]
        simp only [Option.getD_some]
        refine ⟨⟨rfl, ?_, ?_, hcb⟩, ?_⟩
        · exact builders_update_inv (builders_update_inv hb (builderInv_reset _))
            (builderInv_add_tick _ _ hq (builderInv_reset _))
        · exact times_update_inv hct hbt
        · intro bar hbar
          simp at hbar
      · obtain ⟨hk, hkmul⟩ := hcur
        have hok := builder_build_ok _ _ _ hbuInv hbuild
        have hbarok : BarOK rs.interval_seconds bar :=
          ⟨⟨hk, by rw [hok.1]; exact hkmul⟩, hok.2.1, hok.2.2.1, hok.2.2.2.1,
            hok.2.2.2.2.1, hok.2.2.2.2.2.1, hok.2.2.2.2.2.2.1, hok.2.2.2.2.2.2.2⟩
        dsimp only
        rw [dictGet_dictSet_self]
        simp only [Option.getD_some]
        refine ⟨⟨rfl, ?_, ?_, ?_⟩, ?_⟩
        · exact builders_update_inv (builders_update_inv hb (builderInv_reset _))
            (builderInv_add_tick _ _ hq (builderInv_reset _))
        · exact times_update_inv hct hbt
        · exact completed_update_inv hcb hbarok
        · intro bar' hbar'
          obtain rfl := Option.some.inj hbar'
          exact hbarok
    · rw [if_neg h2]
      refine ⟨⟨rfl, ?_, hct, hcb⟩, ?_⟩
      · exact builders_update_inv hb (builderInv_add_tick _ _ hq hbuInv)
      · intro bar hbar
        simp at hbar

theorem processTicks_preserves (Δ : ℕ) (ticks : List Tick) :
    ∀ rs : TimeSeriesResampler, (∀ t ∈ ticks, 0 ≤ t.quantity) → ResamplerInv Δ rs →
      ResamplerInv Δ (processTicks rs ticks) := by
  induction ticks with
  | nil => intro rs _ h; exact h
  | cons t rest ih =>
    intro rs hq h
    have hstep := add_tick_preserves Δ rs t (hq t (List.mem_cons_self _ _)) h
    exact ih _ (fun u hu => hq u (List.mem_cons_of_mem _ hu)) hstep.1

theorem get_current_bar_ok (Δ : ℕ) (rs : TimeSeriesResampler) (hinv : ResamplerInv Δ rs)
    (s : String) (bar : OHLCVBar) (h : rs.get_current_bar s = some bar) : BarOK Δ bar := by
  obtain ⟨hΔ, hb, hct, hcb⟩ := hinv
  rw [TimeSeriesResampler.get_current_bar] at h
  rcases h1 : dictGet rs.builders (pyUpper s) with _ | b <;> rw [h1] at h
  · exact absurd h (by simp)
  · rcases h2 : dictGet rs.current_bar_time (pyUpper s) with _ | ct <;> rw [h2] at h
    · exact absurd h (by simp)
    · have hok := builder_build_ok _ _ _ (hb _ _ h1) h
      obtain ⟨k, hk⟩ := hct _ _ h2
      subst hΔ
      exact ⟨⟨k, by rw [hok.1]; exact hk⟩, hok.2.1, hok.2.2.1, hok.2.2.2.1,
        hok.2.2.2.2.1, hok.2.2.2.2.2.1, hok.2.2.2.2.2.2.1, hok.2.2.2.2.2.2.2⟩

/-- C2: for ticks with positive price and non-negative quantity, every bar
the resampler emits — completed bars and `get_current_bar` snapshots —
has an epoch-aligned `bar_start` (a multiple of the timeframe width),
`low ≤ open, close, vwap ≤ high`, and `trade_count ≥ 1`; `build` returns
nothing when `trade_count = 0`; and a built bar with zero volume has
`vwap = close`. -/
theorem resampler_bar_invariants (tf : String) (ticks : List Tick)
    (h : ∀ t ∈ ticks, 0 < t.price ∧ 0 ≤ t.quantity) :
    (∀ s bars,
      dictGet (processTicks (mkResampler tf) ticks).completed_bars s = some bars →
      ∀ bar ∈ bars, BarOK (mkResampler tf).interval_seconds bar) ∧
    (∀ s bar, (processTicks (mkResampler tf) ticks).get_current_bar s = some bar →
      BarOK (mkResampler tf).interval_seconds bar) ∧
    (∀ (b : BarBuilder) (ts : ℚ), b.trade_count = 0 → b.build ts = none) ∧
    (∀ (b : BarBuilder) (ts : ℚ) (bar : OHLCVBar), b.volume = 0 → b.build ts = some bar →
      bar.vwap = bar.close) := by
  have hinv := processTicks_preserves (mkResampler tf).interval_seconds ticks (mkResampler tf)
    (fun t ht => (h t ht).2) (resamplerInv_mk tf)
  refine ⟨hinv.2.2.2, ?_, ?_, ?_⟩
  · intro s bar hbar
    exact get_current_bar_ok _ _ hinv s bar hbar
  · intro b ts h0
    rw [BarBuilder.build, if_pos h0]
  · intro b ts bar hv hbuild
    rw [BarBuilder.build] at hbuild
    by_cases h0 : b.trade_count = 0
    · rw [if_pos h0] at hbuild
      exact absurd hbuild (by simp)
    · rw [if_neg h0] at hbuild
      obtain rfl := Option.some.inj hbuild
      dsimp only
      rw [if_neg (by simp [hv])]

/-- A first tick: "BTC" at `t = 30` (price 100, quantity 1). -/
def resTick1 : Tick := { symbol := "BTC", timestamp := 30, price := 100, quantity := 1 }

/-- The open bar `get_current_bar` returns after `resTick1` on a fresh
1-minute resampler. -/
def resBar0 : OHLCVBar :=
  { symbol := "BTC", timestamp := 0, open_ := 100, high := 100, low := 100, close := 100,
    volume := 1, vwap := 100, trade_count := 1 }

/-- C2 witness: the snapshot bar after one concrete tick satisfies all the
claimed invariants for the 1-minute timeframe. -/
theorem resampler_bar_invariants_witness :
    BarOK (mkResampler "1T").interval_seconds resBar0 := by
  have hup : pyUpper "BTC" = "BTC" := by decide
  have q1 : ("1S" == "1T") = false := by decide
  have q2 : ("1T" == "1T") = true := by decide
  have q3 : ("BTC" == "BTC") = true := by decide
  have hcur : (processTicks (mkResampler "1T") [resTick1]).get_current_bar "BTC" =
      some resBar0 := by
    norm_num [processTicks, TimeSeriesResampler.add_tick, TimeSeriesResampler.get_current_bar,
      mkResampler, TIMEFRAME_SECONDS, get_bar_timestamp, dictGet, dictSet, List.find?,
      BarBuilder.add_tick, BarBuilder.build, hup, q1, q2, q3, resTick1, resBar0]
  exact (resampler_bar_invariants "1T" [resTick1] (by decide)).2.1 "BTC" resBar0 hcur

end StatArb
